import Mathlib

/-!
Verification development for the markup classification / pluggable rendering
pipeline of the simple-editor-pro component library.

The pure functions of the source are embedded as executable Lean functions:
  - `normalizeUrl`   embeds `normalizeUrl` from src/lib/tiptap-utils.ts
  - `detectContentType` embeds `detectContentType` from src/components/PreviewPanel.tsx
  - `renderHTMLImg`  embeds `CustomImage.renderHTML` (image serialization)
  - `displaySrcView` embeds the display-URL computation of `CustomImageNodeView`
  - `renderF`        embeds the `replace`-option tree walk of `PreviewPanel`
  - `shortCircuitRewrite` embeds the empty-registry regex rewrite of `PreviewPanel`

JavaScript regular expressions appearing in the source are specialized to
hand-written matchers over `List Char`; each matcher carries a comment citing
the original pattern and the backtracking reasoning that justifies the
specialization.  JavaScript strings are modelled as Lean `String`
(`List Char` based); `\s`, `.` (dot) and multiline anchors follow the
ECMAScript definitions restricted to the ASCII range plus CR/LF, which covers
every input used below.
-/

/-- ECMAScript whitespace class for trim / the regex class backslash-s,
restricted to ASCII: space, tab, LF, CR, vertical tab, form feed. -/
def isJsWS (c : Char) : Bool :=
  c = ' ' || c = '\t' || c = '\n' || c = '\r' || c = '\x0b' || c = '\x0c'

/-- JavaScript `String.prototype.trim`: drop leading and trailing whitespace. -/
def jsTrim (s : String) : String :=
  String.mk (((s.data.dropWhile isJsWS).reverse.dropWhile isJsWS).reverse)

/-- ASCII lowercasing of one character, as JavaScript `toLowerCase` acts on
the ASCII range (the only characters reaching it in this development). -/
def lcase (c : Char) : Char :=
  if 65 ≤ c.toNat ∧ c.toNat ≤ 90 then Char.ofNat (c.toNat + 32) else c

/-- JavaScript `String.prototype.toLowerCase` on ASCII data. -/
def jsToLower (s : String) : String :=
  String.mk (s.data.map lcase)

/-- Does the pattern (first argument) literally begin the list? -/
def startsWithChars : List Char → List Char → Bool
  | [], _ => true
  | _ :: _, [] => false
  | p :: ps, c :: cs => p = c && startsWithChars ps cs

/-- Case-insensitive variant of `startsWithChars`; the pattern is given in
lowercase. -/
def startsWithCI : List Char → List Char → Bool
  | [], _ => true
  | _ :: _, [] => false
  | p :: ps, c :: cs => lcase c = p && startsWithCI ps cs

/-- Does the predicate hold at some suffix of the list?  This is the search
performed by an unanchored JavaScript `RegExp.test`: try every start
position. -/
def existsSuffix (p : List Char → Bool) : List Char → Bool
  | [] => p []
  | c :: cs => p (c :: cs) || existsSuffix p cs

/-- Membership of a single character. -/
def containsChar (c : Char) : List Char → Bool
  | [] => false
  | x :: r => x = c || containsChar c r

/-- Case-sensitive substring test (JavaScript `String.prototype.includes`). -/
def containsSub (pat : List Char) (l : List Char) : Bool :=
  existsSuffix (startsWithChars pat) l

/-- Case-insensitive substring test (an `i`-flagged `RegExp.test` with a
literal pattern). -/
def containsCI (pat : List Char) (l : List Char) : Bool :=
  existsSuffix (startsWithCI pat) l

/-- Is the first character the given one? -/
def headIs (c : Char) : List Char → Bool
  | [] => false
  | x :: _ => x = c

/-- The single-quote character, named to keep character literals simple. -/
def squote : Char := Char.ofNat 39

/-- ASCII letter, either case (the class `[a-z]` under the `i` flag). -/
def isAsciiLetter (c : Char) : Bool :=
  (97 ≤ c.toNat && c.toNat ≤ 122) || (65 ≤ c.toNat && c.toNat ≤ 90)

/-- ASCII digit. -/
def isAsciiDigit (c : Char) : Bool :=
  48 ≤ c.toNat && c.toNat ≤ 57

/-- The class `[a-z0-9]` under the `i` flag. -/
def isAlnum (c : Char) : Bool :=
  isAsciiLetter c || isAsciiDigit c

/-- The class `[a-z0-9-]` under the `i` flag. -/
def isLabelChar (c : Char) : Bool :=
  isAlnum c || c = '-'

/-- The class `[a-z0-9+.-]` under the `i` flag (scheme body characters). -/
def isSchemeChar (c : Char) : Bool :=
  isAsciiLetter c || isAsciiDigit c || c = '+' || c = '.' || c = '-'

/-- Tail of `schemeTest`: the regex piece of scheme characters star followed
by a colon.  The star is greedy but a colon is not a scheme character, so the
first non-scheme character must be the colon. -/
def schemeColon : List Char → Bool
  | [] => false
  | ':' :: _ => true
  | c :: r => isSchemeChar c && schemeColon r

/-- The anchored test of the regex `[a-z][a-z0-9+.-]*:` under the `i` flag
(from `normalizeUrl`): an explicit URI scheme. -/
def schemeTest : List Char → Bool
  | [] => false
  | c :: r => isAsciiLetter c && schemeColon r

/-- The anchored test of the regex `https?://` under the `i` flag (from
`normalizeUrl`). -/
def httpSchemeTest (l : List Char) : Bool :=
  startsWithChars "http://".data (l.map lcase) ||
    startsWithChars "https://".data (l.map lcase)

/-- A full domain label per the group `[a-z0-9]([a-z0-9-]*[a-z0-9])?`:
a single alphanumeric character, or alphanumeric at both ends with
alphanumerics and hyphens in between (helper for the length-two-or-more
case: interior label characters ending in an alphanumeric). -/
def labelRest : List Char → Bool
  | [] => false
  | [c] => isAlnum c
  | c :: r => isLabelChar c && labelRest r

/-- The group `[a-z0-9]([a-z0-9-]*[a-z0-9])?` matched against the whole
list. -/
def isDomainLabel : List Char → Bool
  | [] => false
  | c :: r => isAlnum c && (r.isEmpty || labelRest r)

/-- The anchored PREFIX test of the bare-domain regex from `normalizeUrl`:
the pattern label(dot label)+ with no end anchor.  Because the regex is
unanchored at its end and a label may be a single alphanumeric character,
backtracking succeeds exactly when some prefix of the input splits as a full
label, a dot, and one further alphanumeric character. -/
def bareDomainHeadTest (l : List Char) : Bool :=
  (List.range l.length).any fun j =>
    match l.drop j with
    | '.' :: c :: _ => isDomainLabel (l.take j) && isAlnum c
    | _ => false

/-- Embeds `normalizeUrl` of src/lib/tiptap-utils.ts lines 452-482: empty
input returned as is; trimmed; explicit http(s) or other scheme returned
trimmed; root-relative, fragment or empty returned trimmed; bare-domain
shaped head gets an https:// prologue; anything else returned trimmed. -/
def normalizeUrl (url : String) : String :=
  if url = "" then url
  else
    let t := jsTrim url
    if httpSchemeTest t.data then t
    else if schemeTest t.data then t
    else if headIs '/' t.data || headIs '#' t.data || t = "" then t
    else if bareDomainHeadTest t.data then "https://" ++ t
    else t

/-!
Content-type classifier, embedding `detectContentType` of
src/components/PreviewPanel.tsx lines 118-176.  Each JavaScript regex is a
search (`test`), modelled by `existsSuffix` over an anchored matcher, or for
the `m`-flagged caret-anchored ones by `atLineStarts`.
-/

/-- ECMAScript dot: any character except a line terminator.  Restricted to
LF and CR (the only terminators in ASCII data). -/
def isDotChar (c : Char) : Bool :=
  !(c = '\n' || c = '\r')

/-- Helper for `atLineStarts`: try the matcher after each line terminator. -/
def lineStartsGo (p : List Char → Bool) : List Char → Bool
  | [] => false
  | c :: r => ((c = '\n' || c = '\r') && p r) || lineStartsGo p r

/-- Multiline caret positions: the start of the string and every position
following a line terminator. -/
def atLineStarts (p : List Char → Bool) (l : List Char) : Bool :=
  p l || lineStartsGo p l

/-- Continuation of `wsPlusDot` after at least one whitespace character. -/
def wsDotGo : List Char → Bool
  | [] => false
  | c :: r => isDotChar c || (isJsWS c && wsDotGo r)

/-- After the hash run of a heading: whitespace plus then dot plus.  A
whitespace character that is not a line terminator can also serve as the dot
character, which the disjunction below captures. -/
def wsPlusDot : List Char → Bool
  | [] => false
  | c :: r => isJsWS c && wsDotGo r

/-- Heading matcher, anchored: one to six hash marks then whitespace then a
dot character (the regex hash-run quantifier is capped at six; consuming the
maximal run up to six is complete because a leftover hash can match neither
the whitespace class nor start it). -/
def mdHeadingGo : List Char → Nat → Bool
  | '#' :: r, n => if n < 6 then mdHeadingGo r (n + 1) else false
  | cs, n => decide (1 ≤ n) && wsPlusDot cs

/-- Anchored heading test (pattern 1 of the markdown signature list). -/
def mdHeadingAt (cs : List Char) : Bool :=
  mdHeadingGo cs 0

/-- Scan for a closing double star with only dot characters in between. -/
def boldScan : List Char → Bool
  | '*' :: '*' :: _ => true
  | c :: r => isDotChar c && boldScan r
  | [] => false

/-- Anchored bold test: double star, lazy dots, double star (pattern 2). -/
def mdBoldAt : List Char → Bool
  | '*' :: '*' :: r => boldScan r
  | _ => false

/-- Scan for a closing single star with only dot characters in between. -/
def starScan : List Char → Bool
  | '*' :: _ => true
  | c :: r => isDotChar c && starScan r
  | [] => false

/-- Anchored italic test: star, one character that is neither star nor LF,
lazy dots, star (pattern 3). -/
def mdItalicAt : List Char → Bool
  | '*' :: c :: r => !(c = '*') && !(c = '\n') && starScan r
  | _ => false

/-- Anchored unordered-list test at a line start: dash, space, a dot
character (pattern 4). -/
def mdUlAt : List Char → Bool
  | '-' :: ' ' :: c :: _ => isDotChar c
  | _ => false

/-- After the digit run of an ordered-list item: a literal dot, a space and
a dot character. -/
def mdOlDot : List Char → Bool
  | '.' :: ' ' :: c :: _ => isDotChar c
  | _ => false

/-- Consume the (greedy) digit run of an ordered-list item. -/
def mdOlDigits : List Char → Bool
  | [] => false
  | c :: r => if isAsciiDigit c then (mdOlDigits r || mdOlDot r) else false

/-- Anchored ordered-list test at a line start (pattern 5): digits plus,
dot, space, a dot character.  A shorter digit run never helps because a
digit matches neither the literal dot nor the space, except that the run may
stop at any digit boundary where the dot follows, which the disjunction in
`mdOlDigits` captures. -/
def mdOlAt : List Char → Bool
  | c :: r => isAsciiDigit c && (mdOlDigits r || mdOlDot r)
  | [] => false

/-- Scan for a triple backtick anywhere. -/
def tripleTickScan : List Char → Bool
  | '`' :: '`' :: '`' :: _ => true
  | _ :: r => tripleTickScan r
  | [] => false

/-- Anchored fenced-code test: triple backtick, anything lazily, triple
backtick (pattern 6). -/
def mdFenceAt : List Char → Bool
  | '`' :: '`' :: '`' :: r => tripleTickScan r
  | _ => false

/-- Scan for a closing backtick with no backtick or LF in between. -/
def tickScan : List Char → Bool
  | '`' :: _ => true
  | c :: r => !(c = '\n') && tickScan r
  | [] => false

/-- Anchored inline-code test: backtick, one or more characters that are
neither backtick nor LF, backtick (pattern 7). -/
def mdCodeAt : List Char → Bool
  | '`' :: c :: r => !(c = '`') && !(c = '\n') && tickScan r
  | _ => false

/-- Scan to the first closing paren, requiring at least the one character
already checked by the caller. -/
def parenClose : List Char → Bool
  | ')' :: _ => true
  | _ :: r => parenClose r
  | [] => false

/-- The paren part of a link: open paren, one or more non-paren characters,
close paren. -/
def parenPart : List Char → Bool
  | '(' :: c :: r => !(c = ')') && parenClose r
  | _ => false

/-- Scan past the bracket body (characters other than a closing bracket) to
the closing bracket, then require the paren part. -/
def bracketScan : List Char → Bool
  | ']' :: r => parenPart r
  | _ :: r => bracketScan r
  | [] => false

/-- Anchored link test: bracket body then paren part (pattern 8). -/
def mdLinkAt : List Char → Bool
  | '[' :: r => bracketScan r
  | _ => false

/-- Anchored empty-alt image test (pattern 9). -/
def mdImgEmptyAt : List Char → Bool
  | '!' :: '[' :: ']' :: '(' :: c :: r => !(c = ')') && parenClose r
  | _ => false

/-- Anchored image test with arbitrary alt (pattern 10). -/
def mdImgAt : List Char → Bool
  | '!' :: '[' :: r => bracketScan r
  | _ => false

/-- Anchored blockquote test at a line start (pattern 11). -/
def mdQuoteAt : List Char → Bool
  | '>' :: ' ' :: c :: _ => isDotChar c
  | _ => false

/-- Anchored horizontal-rule test at a line start: exactly three dashes then
a line end (pattern 12). -/
def mdHrAt : List Char → Bool
  | '-' :: '-' :: '-' :: r => r.isEmpty || headIs '\n' r || headIs '\r' r
  | _ => false

/-- Scan for the closing pipe of a table row over dot characters. -/
def pipeScan : List Char → Bool
  | '|' :: _ => true
  | c :: r => isDotChar c && pipeScan r
  | [] => false

/-- Anchored table-row test: pipe, one or more dot characters, pipe
(pattern 13). -/
def mdTableAt : List Char → Bool
  | '|' :: c :: r => isDotChar c && (if c = '|' then true else pipeScan r)
  | _ => false

/-- One point when the test fires, as in the reduce of the source. -/
def scorePoint (b : Bool) : Nat :=
  if b then 1 else 0

/-- The markdown signature score of `detectContentType`: one unweighted
point per matched pattern, patterns listed in source order. -/
def mdScore (l : List Char) : Nat :=
  scorePoint (existsSuffix mdHeadingAt l) +
  scorePoint (existsSuffix mdBoldAt l) +
  scorePoint (existsSuffix mdItalicAt l) +
  scorePoint (atLineStarts mdUlAt l) +
  scorePoint (atLineStarts mdOlAt l) +
  scorePoint (existsSuffix mdFenceAt l) +
  scorePoint (existsSuffix mdCodeAt l) +
  scorePoint (existsSuffix mdLinkAt l) +
  scorePoint (existsSuffix mdImgEmptyAt l) +
  scorePoint (existsSuffix mdImgAt l) +
  scorePoint (atLineStarts mdQuoteAt l) +
  scorePoint (atLineStarts mdHrAt l) +
  scorePoint (existsSuffix mdTableAt l)

/-- Anchored test for one tag-like token: angle bracket, optional slash, an
ASCII letter, then anything up to a later closing angle bracket. -/
def tagTokenAt : List Char → Bool
  | '<' :: '/' :: c :: r => isAsciiLetter c && containsChar '>' r
  | '<' :: c :: r => isAsciiLetter c && containsChar '>' r
  | _ => false

/-- Anchored test for a closing tag token. -/
def closingTokenAt : List Char → Bool
  | '<' :: '/' :: c :: r => isAsciiLetter c && containsChar '>' r
  | _ => false

/-- Keep characters of the reversed list up to (excluding) the first
closing angle bracket. -/
def revKeepUntilGt : List Char → List Char
  | [] => []
  | c :: r => if c = '>' then [] else c :: revKeepUntilGt r

/-- The suffix of the list strictly after its last closing angle bracket
(the whole list when none exists). -/
def afterLastGt (l : List Char) : List Char :=
  (revKeepUntilGt l.reverse).reverse

/-- Number of global matches of a greedy tag regex of the shape
start-pattern then anything-greedy then a closing angle bracket: whenever a
match exists, the greedy any-run extends it to the LAST closing angle
bracket of the input, and scanning resumes after it. -/
def countGreedy (p : List Char → Bool) : Nat → List Char → Nat
  | 0, _ => 0
  | n + 1, l => if existsSuffix p l then 1 + countGreedy p n (afterLastGt l) else 0

/-- Global match count of the tag-token regex of `detectContentType`. -/
def htmlTagCount (l : List Char) : Nat :=
  countGreedy tagTokenAt (l.length + 1) l

/-- Global match count of the closing-tag regex of `detectContentType`. -/
def closingTagCount (l : List Char) : Nat :=
  countGreedy closingTokenAt (l.length + 1) l

/-- Embeds `detectContentType` of src/components/PreviewPanel.tsx lines
118-176, in the decision order of the source: empty input, the paired-tag
rule, tags without markdown signatures, any markdown signature, an angle
bracket start, and the default, each yielding the verdict strings of the
source. -/
def detectContentType (content : String) : String :=
  if content = "" || jsTrim content = "" then "html"
  else
    let trimmed := (jsTrim content).data
    let hasHtmlTags := existsSuffix tagTokenAt trimmed
    if hasHtmlTags && decide (0 < closingTagCount trimmed) &&
        decide (2 ≤ htmlTagCount trimmed) then "html"
    else if hasHtmlTags && decide (mdScore trimmed = 0) then "html"
    else if decide (0 < mdScore trimmed) then "markdown"
    else if headIs '<' trimmed && containsChar '>' trimmed then "html"
    else "html"

/-!
Dual-URL image model, embedding `CustomImage.renderHTML` (the serialization
rule, src/hooks/use-element-width.ts lines 136-195) and the display-URL
computation of `CustomImageNodeView`
(src/components/tiptap-extension/custom-image-node-view.tsx).  Node
attributes are strings or null; JavaScript truthiness makes null and the
empty string interchangeable where the source tests them with a bare
condition.
-/

/-- The stored attributes of an image node that serialization consults. -/
structure ImageAttrs where
  originalSrc : Option String
  src : Option String
  alt : Option String
  title : Option String

/-- JavaScript short-circuit or on two nullable strings: the first operand
unless it is null or empty. -/
def jsOrSrc (a b : Option String) : Option String :=
  match a with
  | some s => if s = "" then b else some s
  | none => b

/-- Index of the first space character, when one exists (JavaScript
`indexOf` of a single space). -/
def firstSpace : List Char → Option Nat
  | [] => none
  | c :: r => if c = ' ' then some 0 else (firstSpace r).map (· + 1)

/-- Longest head run of characters that are neither whitespace nor a quote:
the capture of the anchored regex of non-whitespace non-quote characters
plus used by the cleanup fallback. -/
def takeNonWsQuote : List Char → List Char
  | [] => []
  | c :: r =>
    if isJsWS c || c = '"' || c = squote then []
    else c :: takeNonWsQuote r

/-- The contamination cleanup of `renderHTML` (lines 143-163): when the
stored source looks like it swallowed neighbouring attribute text, keep the
part before the first space, or when no space exists the head run of
non-whitespace non-quote characters; otherwise just the trimmed value. -/
def cleanSrc (s : String) : String :=
  let t := jsTrim s
  let td := t.data
  if containsSub " alt=".data td || containsSub " title=".data td ||
      containsSub "alt=\"".data td || containsSub "title=\"".data td then
    match firstSpace td with
    | some i =>
      if 0 < i then String.mk (td.take i)
      else
        let m := takeNonWsQuote td
        if m.isEmpty then t else String.mk m
    | none =>
      let m := takeNonWsQuote td
      if m.isEmpty then t else String.mk m
  else t

/-- One conditional attribute assignment of `renderHTML`: append the entry
only when the value is non-null and non-empty, trimmed (the String
conversion plus trim of the source). -/
def appendIfTruthy (l : List (String × String)) (k : String) (v : Option String) :
    List (String × String) :=
  match v with
  | some s => if s = "" then l else l ++ [(k, jsTrim s)]
  | none => l

/-- Embeds `CustomImage.renderHTML`: the canonical source is the original
source falling back to the plain source under truthiness, cleaned; the
remaining HTML attributes are kept minus the src, alt and title keys; then
src, alt and title are appended, each only when non-null and non-empty and
each trimmed. -/
def renderHTMLImg (node : ImageAttrs) (htmlAttrs : List (String × String)) :
    List (String × String) :=
  let canonical :=
    match jsOrSrc node.originalSrc node.src with
    | some s => if s = "" then some s else some (cleanSrc s)
    | none => none
  let rest := htmlAttrs.filter fun kv =>
    decide (kv.1 ≠ "src" ∧ kv.1 ≠ "alt" ∧ kv.1 ≠ "title")
  appendIfTruthy
    (appendIfTruthy (appendIfTruthy rest "src" canonical) "alt" node.alt)
    "title" node.title

/-- Embeds the display-URL computation of `CustomImageNodeView`: the
enrichment function applied to the canonical source when both are present
under truthiness, the canonical source otherwise.  Serialization
(`renderHTMLImg`) does not take this function as an input at all. -/
def displaySrcView (node : ImageAttrs) (renderImage : Option (String → String)) :
    Option String :=
  let orig := jsOrSrc node.originalSrc node.src
  match renderImage, orig with
  | some f, some s => if s = "" then orig else some (f s)
  | _, _ => orig

/-- First-match key lookup in an attribute list (a JavaScript object access;
the lists built here carry at most one entry per key). -/
def lookupAttr (l : List (String × String)) (k : String) : Option String :=
  match l with
  | [] => none
  | kv :: r => if kv.1 = k then some kv.2 else lookupAttr r k

/-- JavaScript object property assignment on an attribute list: update the
entry in place when the key is present, append otherwise. -/
def setAttr (l : List (String × String)) (k v : String) : List (String × String) :=
  if l.any (fun kv => kv.1 = k) then
    l.map fun kv => if kv.1 = k then (k, v) else kv
  else l ++ [(k, v)]

/-!
Tag render dispatcher, embedding the `replace`-option tree walk of
`PreviewPanel` (src/components/PreviewPanel.tsx lines 248-371).  The
structured-markup tree handed to the walk is the output of the external
html-react-parser collaborator, modelled below by `parseFragment`.
-/

/-- A parsed structured-markup node as the external parser delivers it:
an element (type tag, with name, attribute map and children) or a text
node. -/
inductive DOMNode where
  | text (s : String)
  | tag (name : String) (attribs : List (String × String)) (children : List DOMNode)

/-- A renderable unit of the output tree: a host-framework element, literal
text, or the array splice produced by re-parsing a markup string. -/
inductive RTree where
  | text (s : String)
  | elem (name : String) (attribs : List (String × String)) (children : List RTree)
  | fragment (items : List RTree)

/-- What a caller-supplied tag renderer returns: a markup string, a
host-framework element (a renderable unit), a malformed value of any other
shape, or a thrown exception. -/
inductive RendererResult where
  | rstr (s : String)
  | relem (name : String) (attribs : List (String × String)) (children : List RTree)
  | rbad
  | rthrow

/-- The read-only context handed to a tag renderer (interface
`TagRenderContext` of the source). -/
structure TagRenderContext where
  tagName : String
  attributes : List (String × String)
  innerHTML : String
  originalHTML : String

/-- The caller-supplied transform registry: at most one renderer per
(lowercased) tag name. -/
def Registry := String → Option (TagRenderContext → RendererResult)

/-- Context construction of the source (lines 277-298): attribute keys
lowercased with later duplicates overwriting, the inner-content field set to
the empty string, and the original-serialization field set to the empty
string. -/
def mkContext (tagName : String) (attribs : List (String × String)) :
    TagRenderContext where
  tagName := tagName
  attributes := attribs.foldl (fun acc kv => setAttr acc (jsToLower kv.1) kv.2) []
  innerHTML := ""
  originalHTML := ""

/-- Step one of the default link-safety pass (lines 259-262): rewrite the
href attribute through `normalizeUrl` when it is present and passes
JavaScript truthiness. -/
def linkHrefStep (attribs : List (String × String)) : List (String × String) :=
  match lookupAttr attribs "href" with
  | some h => if h = "" then attribs else setAttr attribs "href" (normalizeUrl h)
  | none => attribs

/-- Steps two and three of the default link-safety pass (lines 263-269):
assign the value when the attribute is missing or fails JavaScript
truthiness (the bare negation of the source also rejects the empty
string). -/
def linkSetIfFalsy (attribs : List (String × String)) (k v : String) :
    List (String × String) :=
  match lookupAttr attribs k with
  | some w => if w = "" then setAttr attribs k v else attribs
  | none => setAttr attribs k v

/-- The default link-safety pass of the source (lines 257-271): href
normalization, then the target and rel assignments. -/
def linkPass (attribs : List (String × String)) : List (String × String) :=
  linkSetIfFalsy (linkSetIfFalsy (linkHrefStep attribs) "target" "_blank")
    "rel" "noopener noreferrer"

/-- Modelled from the spec: tag-name characters accepted by the
off-the-shelf structured-markup parser (external collaborator); the parser
normalizes tag names to lowercase, so names are runs of lowercase letters
and digits. -/
def isTagNameChar (c : Char) : Bool :=
  (97 ≤ c.toNat && c.toNat ≤ 122) || isAsciiDigit c

/-- Longest head run satisfying the predicate together with the remainder. -/
def spanP (p : Char → Bool) : List Char → List Char × List Char
  | [] => ([], [])
  | c :: r =>
    if p c then
      let a := spanP p r
      (c :: a.1, a.2)
    else ([], c :: r)

/-- Drop characters up to and including the next closing angle bracket. -/
def dropThroughGt : List Char → List Char
  | [] => []
  | '>' :: r => r
  | _ :: r => dropThroughGt r

/-- Modelled from the spec: void elements the external parser closes
implicitly. -/
def isVoidTag (s : String) : Bool :=
  ["area", "base", "br", "col", "embed", "hr", "img", "input", "link",
    "meta", "param", "source", "track", "wbr"].contains s

/-- Modelled from the spec: attribute scanning of the external
structured-markup parser.  Consumes up to the closing angle bracket and
returns the attribute pairs, the remainder, and whether the tag was
self-closing.  Fuelled for totality; the caller passes ample fuel. -/
def parseAttrs : Nat → List Char → List (String × String) × List Char × Bool
  | 0, cs => ([], cs, false)
  | n + 1, cs =>
    match cs with
    | [] => ([], [], false)
    | '>' :: r => ([], r, false)
    | '/' :: '>' :: r => ([], r, true)
    | c :: r =>
      if isJsWS c then parseAttrs n r
      else
        let nm := spanP (fun ch => !(isJsWS ch) && !(ch = '=') && !(ch = '>') && !(ch = '/')) (c :: r)
        if nm.1.isEmpty then parseAttrs n r
        else
          match nm.2 with
          | '=' :: '"' :: r2 =>
            let v := spanP (fun ch => !(ch = '"')) r2
            let r3 := match v.2 with
              | '"' :: r4 => r4
              | other => other
            let rec1 := parseAttrs n r3
            ((String.mk nm.1, String.mk v.1) :: rec1.1, rec1.2.1, rec1.2.2)
          | '=' :: r2 =>
            if headIs squote r2 then
              let v := spanP (fun ch => !(ch = squote)) (r2.drop 1)
              let r3 := v.2.drop 1
              let rec1 := parseAttrs n r3
              ((String.mk nm.1, String.mk v.1) :: rec1.1, rec1.2.1, rec1.2.2)
            else
              let v := spanP (fun ch => !(isJsWS ch) && !(ch = '>')) r2
              let rec1 := parseAttrs n v.2
              ((String.mk nm.1, String.mk v.1) :: rec1.1, rec1.2.1, rec1.2.2)
          | _ =>
            let rec1 := parseAttrs n nm.2
            ((String.mk nm.1, "") :: rec1.1, rec1.2.1, rec1.2.2)

/-- Modelled from the spec: the off-the-shelf structured-markup parser
(external collaborator html-react-parser), on well-formed fragments: open
tags create elements whose children run to the matching close tag, void and
self-closed tags have no children, everything else is literal text.
Fuelled for totality. -/
def parseNodes : Nat → Option String → List Char → List DOMNode × List Char
  | 0, _, cs => ([], cs)
  | n + 1, stop, cs =>
    match cs with
    | [] => ([], [])
    | '<' :: '/' :: r =>
      let nm := spanP isTagNameChar r
      let r2 := dropThroughGt nm.2
      if stop = some (String.mk nm.1) then ([], r2)
      else parseNodes n stop r2
    | '<' :: c :: r =>
      if isTagNameChar c then
        let nmRest := spanP isTagNameChar r
        let name := String.mk (c :: nmRest.1)
        let pa := parseAttrs (n + 1) nmRest.2
        if pa.2.2 || isVoidTag name then
          let sibs := parseNodes n stop pa.2.1
          (DOMNode.tag name pa.1 [] :: sibs.1, sibs.2)
        else
          let kids := parseNodes n (some name) pa.2.1
          let sibs := parseNodes n stop kids.2
          (DOMNode.tag name pa.1 kids.1 :: sibs.1, sibs.2)
      else
        let txt := spanP (fun ch => !(ch = '<')) (c :: r)
        let sibs := parseNodes n stop txt.2
        (DOMNode.text (String.mk ('<' :: txt.1)) :: sibs.1, sibs.2)
    | c :: r =>
      let txt := spanP (fun ch => !(ch = '<')) r
      let sibs := parseNodes n stop txt.2
      (DOMNode.text (String.mk (c :: txt.1)) :: sibs.1, sibs.2)

/-- Modelled from the spec: parse a markup string into a node list (the
external parse call of the source). -/
def parseFragment (s : String) : List DOMNode :=
  (parseNodes (s.data.length + 1) none s.data).1

/-- The tree walk of `PreviewPanel` with the `replace` option (lines
248-371), fuelled: every recursive call decreases the fuel, and the
exhausted-fuel value never arises in the theorems below, which quantify over
sufficient fuel.  The `susp` argument carries the tag name whose renderer
the active recursive options suppress (`recursiveOptions`, lines 326-335);
it is `none` for the top-level options object.  Per element node, in source
order: the recursive-options same-tag check, then the default link-safety
pass when the tag is an anchor with no registered renderer, then the
renderer dispatch with its catch-all fallback to default rendering; a
renderer-returned element adopts the walked children (merged after its own),
and a renderer-returned markup string is re-parsed under suppression of the
producing tag when it starts with an angle bracket after trimming and is
spliced as literal text otherwise. -/
def renderF (R : Registry) : Nat → Option String → List DOMNode → List RTree
  | 0, _, _ => []
  | _ + 1, _, [] => []
  | fuel + 1, susp, DOMNode.text s :: ns => RTree.text s :: renderF R fuel susp ns
  | fuel + 1, susp, DOMNode.tag name attribs children :: ns =>
    let here :=
      if susp = some name then
        RTree.elem name attribs (renderF R fuel susp children)
      else
        let tagName := jsToLower name
        let attribs1 :=
          if tagName = "a" then
            match R "a" with
            | none => linkPass attribs
            | some _ => attribs
          else attribs
        match R tagName with
        | none => RTree.elem name attribs1 (renderF R fuel susp children)
        | some f =>
          match f (mkContext tagName attribs1) with
          | RendererResult.rthrow =>
            RTree.elem name attribs1 (renderF R fuel susp children)
          | RendererResult.rbad =>
            RTree.elem name attribs1 (renderF R fuel susp children)
          | RendererResult.relem n2 a2 c2 =>
            if children.isEmpty then RTree.elem n2 a2 c2
            else if c2.isEmpty then RTree.elem n2 a2 (renderF R fuel none children)
            else RTree.elem n2 a2 (c2 ++ renderF R fuel none children)
          | RendererResult.rstr s =>
            if headIs '<' (jsTrim s).data then
              RTree.fragment (renderF R fuel (some tagName) (parseFragment s))
            else RTree.text s
    here :: renderF R fuel susp ns

/-- Trees whose element names are fixed points of lowercasing, as the
external parser produces them (used to reason about the suppression
comparison of raw names against the lowercased producing tag). -/
inductive LowerTree : DOMNode → Prop where
  | text (s : String) : LowerTree (DOMNode.text s)
  | tag (name : String) (attribs : List (String × String)) (children : List DOMNode) :
      jsToLower name = name → (∀ c, c ∈ children → LowerTree c) →
      LowerTree (DOMNode.tag name attribs children)

/-!
Empty-registry short-circuit of `PreviewPanel` (lines 222-245): a global
regex replace over the raw markup string that rewrites quoted href
attributes of anchor open tags and appends target and rel when the rewritten
attribute text lacks them.  The regex is: an anchor open, whitespace plus,
a lazy run of non-angle characters, a quoted href value with a
backreferenced closing quote, a greedy run of non-angle characters, and the
closing angle bracket, global and case-insensitive.
-/

/-- Collect the lazily matched quoted value up to the backreferenced closing
quote; the value class excludes both quote characters, so reaching the other
quote first fails the attempt. -/
def scanQuote (q : Char) : List Char → Option (List Char × List Char)
  | [] => none
  | c :: r =>
    if c = q then some ([], r)
    else if c = '"' || c = squote then none
    else (scanQuote q r).map fun ur => (c :: ur.1, ur.2)

/-- Collect the greedy run of non-angle characters and consume the closing
angle bracket. -/
def scanGt : List Char → Option (List Char × List Char)
  | [] => none
  | '>' :: r => some ([], r)
  | c :: r => (scanGt r).map fun gr => (c :: gr.1, gr.2)

/-- The lazy pre-href run: at each position first attempt the literal
href=, a quote, the quoted value, the post run and the closing angle
bracket; on failure grow the run by one non-angle character
(backtracking order of a lazy quantifier). -/
def hrefDirect (acc cs : List Char) : Option (List Char × Char × List Char × List Char × List Char) :=
  if startsWithCI "href=".data cs then
    match cs.drop 5 with
    | q :: r2 =>
      if q = '"' || q = squote then
        match scanQuote q r2 with
        | some ur =>
          match scanGt ur.2 with
          | some gr => some (acc.reverse, q, ur.1, gr.1, gr.2)
          | none => none
        | none => none
      else none
    | [] => none
  else none

/-- See the doc comment above `hrefDirect`; this is the scanning loop. -/
def tryHref (acc : List Char) : List Char → Option (List Char × Char × List Char × List Char × List Char)
  | [] => none
  | c :: r =>
    match hrefDirect acc (c :: r) with
    | some m => some m
    | none => if c = '>' then none else tryHref (c :: acc) r

/-- Attempt the anchor regex at the head of the list, returning the four
capture groups and the remainder after the match. -/
def matchAnchorAt : List Char → Option (List Char × Char × List Char × List Char × List Char)
  | '<' :: c :: r =>
    if lcase c = 'a' then
      let ws := spanP isJsWS r
      if ws.1.isEmpty then none else tryHref [] ws.2
    else none
  | _ => none

/-- The replacement the source builds for one anchor match: the rewritten
attribute text with the normalized href, plus target and rel when the
attribute text lacks them, wrapped back into an anchor open tag. -/
def anchorReplacement (g1 : List Char) (q : Char) (url g4 : List Char) : List Char :=
  let normalized := normalizeUrl (String.mk url)
  let newAttrs := g1 ++ "href=".data ++ [q] ++ normalized.data ++ [q] ++ g4
  let na2 :=
    if containsCI "target=".data newAttrs then newAttrs
    else newAttrs ++ " target=\"_blank\"".data
  let na3 :=
    if containsCI "rel=".data na2 then na2
    else na2 ++ " rel=\"noopener noreferrer\"".data
  "<a ".data ++ na3 ++ [ '>' ]

/-- Global scan of the regex replace: rewrite each leftmost match and resume
after it, copying unmatched characters. -/
def anchorRewriteGo : Nat → List Char → List Char
  | 0, cs => cs
  | n + 1, cs =>
    match matchAnchorAt cs with
    | some m => anchorReplacement m.1 m.2.1 m.2.2.1 m.2.2.2.1 ++ anchorRewriteGo n m.2.2.2.2
    | none =>
      match cs with
      | [] => []
      | c :: r => c :: anchorRewriteGo n r

/-- Embeds the empty-registry short-circuit of `PreviewPanel` (lines
225-244): the whole-string regex rewrite applied before the markup is handed
over as one literal fragment. -/
def shortCircuitRewrite (s : String) : String :=
  String.mk (anchorRewriteGo (s.data.length + 1) s.data)

/-!
Theorems.  General lemmas about the attribute-list operations come first,
then one theorem per claim (with its witness or counterexample).
-/

theorem lookupAttr_eq_none (l : List (String × String)) (k : String)
    (h : ∀ kv ∈ l, kv.1 ≠ k) : lookupAttr l k = none := by
  induction l with
  | nil => rfl
  | cons kv r ih =>
    simp only [lookupAttr]
    rw [if_neg (h kv (by simp))]
    exact ih fun kv' h' => h kv' (by simp [h'])

theorem lookupAttr_append_of_none (l l' : List (String × String)) (k : String)
    (h : lookupAttr l k = none) : lookupAttr (l ++ l') k = lookupAttr l' k := by
  induction l with
  | nil => rfl
  | cons kv r ih =>
    simp only [lookupAttr] at h ⊢
    by_cases hk : kv.1 = k
    · rw [if_pos hk] at h; exact absurd h (by simp)
    · rw [if_neg hk] at h ⊢; exact ih h

theorem lookupAttr_append_of_some (l l' : List (String × String)) (k v : String)
    (h : lookupAttr l k = some v) : lookupAttr (l ++ l') k = some v := by
  induction l with
  | nil => exact absurd h (by simp [lookupAttr])
  | cons kv r ih =>
    simp only [lookupAttr] at h ⊢
    by_cases hk : kv.1 = k
    · rw [if_pos hk] at h ⊢; exact h
    · rw [if_neg hk] at h ⊢; exact ih h

theorem lookupAttr_map_set (l : List (String × String)) (k v : String)
    (h : l.any (fun kv => kv.1 = k) = true) :
    lookupAttr (l.map fun kv => if kv.1 = k then (k, v) else kv) k = some v := by
  induction l with
  | nil => simp at h
  | cons kv r ih =>
    by_cases hk : kv.1 = k
    · simp [lookupAttr, hk]
    · have h' : (r.any fun kv => decide (kv.1 = k)) = true := by
        simp only [List.any_cons, Bool.or_eq_true, decide_eq_true_eq] at h
        exact h.resolve_left hk
      simp only [List.map, lookupAttr, if_neg hk]
      exact ih h'

theorem lookupAttr_setAttr_self (l : List (String × String)) (k v : String) :
    lookupAttr (setAttr l k v) k = some v := by
  unfold setAttr
  by_cases h : l.any (fun kv => kv.1 = k) = true
  · rw [if_pos h]; exact lookupAttr_map_set l k v h
  · rw [if_neg h]
    have hn : lookupAttr l k = none := by
      refine lookupAttr_eq_none l k fun kv hm => ?_
      intro he
      exact h (List.any_eq_true.mpr ⟨kv, hm, by simp [he]⟩)
    rw [lookupAttr_append_of_none l _ k hn]
    simp [lookupAttr]

theorem lookupAttr_setAttr_ne (l : List (String × String)) (k v k' : String)
    (h : k' ≠ k) : lookupAttr (setAttr l k v) k' = lookupAttr l k' := by
  unfold setAttr
  by_cases ha : l.any (fun kv => kv.1 = k) = true
  · rw [if_pos ha]
    clear ha
    induction l with
    | nil => rfl
    | cons kv r ih =>
      by_cases hk : kv.1 = k
      · have hne : ¬(k = k') := fun e => h (Eq.symm e)
        have hne2 : ¬(kv.1 = k') := by rw [hk]; exact hne
        simp only [List.map, lookupAttr, if_pos hk, if_neg hne, if_neg hne2]
        exact ih
      · simp only [List.map, lookupAttr, if_neg hk]
        by_cases hk' : kv.1 = k'
        · rw [if_pos hk', if_pos hk']
        · rw [if_neg hk', if_neg hk']
          exact ih
  · rw [if_neg ha]
    rcases hcur : lookupAttr l k' with _ | w
    · rw [lookupAttr_append_of_none l _ k' hcur]
      simp only [lookupAttr]
      rw [if_neg (fun e => h (Eq.symm e))]
    · rw [lookupAttr_append_of_some l _ k' w hcur]


theorem linkHrefStep_lookup_ne (l : List (String × String)) (k : String)
    (h : k ≠ "href") : lookupAttr (linkHrefStep l) k = lookupAttr l k := by
  rcases hh : lookupAttr l "href" with _ | u
  · simp [linkHrefStep, hh]
  · by_cases hu : u = ""
    · simp [linkHrefStep, hh, hu]
    · simp only [linkHrefStep, hh, if_neg hu]
      exact lookupAttr_setAttr_ne l "href" (normalizeUrl u) k h

theorem linkSetIfFalsy_lookup_ne (l : List (String × String)) (k v k' : String)
    (h : k' ≠ k) : lookupAttr (linkSetIfFalsy l k v) k' = lookupAttr l k' := by
  rcases hh : lookupAttr l k with _ | w
  · simp only [linkSetIfFalsy, hh]
    exact lookupAttr_setAttr_ne l k v k' h
  · by_cases hw : w = ""
    · simp only [linkSetIfFalsy, hh, if_pos hw]
      exact lookupAttr_setAttr_ne l k v k' h
    · simp only [linkSetIfFalsy, hh, if_neg hw]

theorem linkSetIfFalsy_lookup_keep (l : List (String × String)) (k v w : String)
    (h : lookupAttr l k = some w) (hw : w ≠ "") :
    lookupAttr (linkSetIfFalsy l k v) k = some w := by
  simp only [linkSetIfFalsy, h, if_neg hw]

theorem linkSetIfFalsy_lookup_fill (l : List (String × String)) (k v : String)
    (h : lookupAttr l k = none ∨ lookupAttr l k = some "") :
    lookupAttr (linkSetIfFalsy l k v) k = some v := by
  rcases h with h | h
  · simp only [linkSetIfFalsy, h]
    exact lookupAttr_setAttr_self l k v
  · simp only [linkSetIfFalsy, h, if_pos rfl]
    exact lookupAttr_setAttr_self l k v

/-- Claim C7 counterexample: the input built from a newline followed by
/a/b is non-empty, has no explicit scheme, starts with neither a slash nor
a hash, and does not match the bare-domain shape (it contains no dot under
any reading), so the claim requires it back unchanged; `normalizeUrl`
returns it trimmed instead. -/
theorem c7_counterexample :
    ("\n/a/b" ≠ "" ∧ schemeTest "\n/a/b".data = false ∧
      httpSchemeTest "\n/a/b".data = false ∧
      headIs '/' "\n/a/b".data = false ∧ headIs '#' "\n/a/b".data = false ∧
      bareDomainHeadTest "\n/a/b".data = false) ∧
    normalizeUrl "\n/a/b" ≠ "\n/a/b" := by
  refine ⟨⟨?_, rfl, rfl, rfl, rfl, ?_⟩, ?_⟩ <;> decide

/-- Claim C7, amended: the four concrete equations hold, and every input
whose TRIMMED form is empty, carries an explicit scheme, starts with a slash
or hash, or does not even begin with a bare-domain-shaped prefix comes back
as the trimmed input (the source trims before every branch, and its
bare-domain regex is an unanchored-head prefix match). -/
theorem c7_amended :
    normalizeUrl "example.com" = "https://example.com" ∧
    normalizeUrl "/a/b" = "/a/b" ∧
    normalizeUrl "mailto:x@y.com" = "mailto:x@y.com" ∧
    normalizeUrl "https://x.com" = "https://x.com" ∧
    ∀ s : String,
      (jsTrim s = "" ∨ httpSchemeTest (jsTrim s).data = true ∨
        schemeTest (jsTrim s).data = true ∨ headIs '/' (jsTrim s).data = true ∨
        headIs '#' (jsTrim s).data = true ∨
        bareDomainHeadTest (jsTrim s).data = false) →
      normalizeUrl s = jsTrim s := by
  refine ⟨rfl, rfl, rfl, rfl, ?_⟩
  intro s h
  by_cases h0 : s = ""
  · subst h0; rfl
  · unfold normalizeUrl
    rw [if_neg h0]
    by_cases h1 : httpSchemeTest (jsTrim s).data = true
    · simp [h1]
    · by_cases h2 : schemeTest (jsTrim s).data = true
      · simp [h1, h2]
      · by_cases h3 : (headIs '/' (jsTrim s).data || headIs '#' (jsTrim s).data) = true ∨ jsTrim s = ""
        · simp only []
          rcases h3 with h3 | h3
          · rw [if_neg (by simpa using h1), if_neg (by simpa using h2), if_pos (by simp [h3])]
          · rw [if_neg (by simpa using h1), if_neg (by simpa using h2), if_pos (by simp [h3])]
        · have h4 : bareDomainHeadTest (jsTrim s).data = false := by
            rcases h with h | h | h | h | h | h
            · exact absurd (Or.inr h) h3
            · exact absurd h h1
            · exact absurd h h2
            · exact absurd (Or.inl (by simp [h])) h3
            · exact absurd (Or.inl (by simp [h])) h3
            · exact h
          simp only []
          rw [if_neg (by simpa using h1), if_neg (by simpa using h2),
            if_neg (by simpa using h3), if_neg (by simp [h4])]

/-- Claim C7 amended witness at a concrete input: an input with surrounding
whitespace and a root-relative body comes back trimmed. -/
theorem c7_witness : normalizeUrl " /a/b " = "/a/b" := by
  have h := c7_amended.2.2.2.2 " /a/b " (Or.inr (Or.inr (Or.inr (Or.inl rfl))))
  simpa using h

/-- Claim C9: the bare-domain test of `normalizeUrl` is a prefix match, not
a whole-string match: whenever the trimmed input reaches that test (no
http(s) or other explicit scheme, no slash or hash start, non-empty) and its
head is domain-shaped, the WHOLE trimmed input gets the https:// prologue --
concretely, the input foo.bar baz with a space in the remainder becomes
https://foo.bar baz. -/
theorem c9_prefix_domain_match :
    (∀ s : String,
      httpSchemeTest (jsTrim s).data = false →
      schemeTest (jsTrim s).data = false →
      headIs '/' (jsTrim s).data = false →
      headIs '#' (jsTrim s).data = false →
      jsTrim s ≠ "" →
      bareDomainHeadTest (jsTrim s).data = true →
      normalizeUrl s = "https://" ++ jsTrim s) ∧
    normalizeUrl "foo.bar baz" = "https://foo.bar baz" := by
  constructor
  · intro s h1 h2 h3 h4 h5 h6
    have h0 : s ≠ "" := by
      intro e
      exact h5 (by rw [e]; rfl)
    unfold normalizeUrl
    rw [if_neg h0]
    simp only []
    rw [if_neg (by simp [h1]), if_neg (by simp [h2]),
      if_neg (by simp [h3, h4, h5]), if_pos (by simp [h6])]
  · rfl

/-- Claim C9 witness: the theorem applied at the concrete input of the
claim. -/
theorem c9_witness : normalizeUrl "foo.bar baz" = "https://foo.bar baz" :=
  c9_prefix_domain_match.1 "foo.bar baz" rfl rfl rfl rfl (by decide) rfl

theorem mem_revKeepUntilGt (l : List Char) (c : Char)
    (h : c ∈ revKeepUntilGt l) : ¬(c = '>') := by
  induction l with
  | nil => simp [revKeepUntilGt] at h
  | cons x r ih =>
    by_cases hx : x = '>'
    · simp [revKeepUntilGt, hx] at h
    · rw [revKeepUntilGt, if_neg hx] at h
      rcases List.mem_cons.mp h with h | h
      · rw [h]; exact hx
      · exact ih h

theorem afterLastGt_no_gt (l : List Char) (c : Char)
    (h : c ∈ afterLastGt l) : ¬(c = '>') :=
  mem_revKeepUntilGt l.reverse c (List.mem_reverse.mp h)

theorem containsChar_false_of (l : List Char)
    (h : ∀ c ∈ l, ¬(c = '>')) : containsChar '>' l = false := by
  induction l with
  | nil => rfl
  | cons x r ih =>
    simp only [containsChar, Bool.or_eq_false_iff]
    constructor
    · exact decide_eq_false (h x (by simp))
    · exact ih fun c hc => h c (by simp [hc])

theorem tagTokenAt_false_of (l : List Char)
    (h : ∀ c ∈ l, ¬(c = '>')) : tagTokenAt l = false := by
  rw [tagTokenAt.eq_def]
  split
  · rename_i c r
    have : containsChar '>' r = false :=
      containsChar_false_of r fun c' hc' => h c' (by simp [hc'])
    simp [this]
  · rename_i c r _
    have : containsChar '>' r = false :=
      containsChar_false_of r fun c' hc' => h c' (by simp [hc'])
    simp [this]
  · rfl

theorem existsSuffix_tag_false (l : List Char)
    (h : ∀ c ∈ l, ¬(c = '>')) : existsSuffix tagTokenAt l = false := by
  induction l with
  | nil => rfl
  | cons c r ih =>
    simp only [existsSuffix, Bool.or_eq_false_iff]
    exact ⟨tagTokenAt_false_of (c :: r) h, ih fun c' hc' => h c' (by simp [hc'])⟩

theorem countGreedy_tag_zero (l : List Char)
    (h : ∀ c ∈ l, ¬(c = '>')) : ∀ n, countGreedy tagTokenAt n l = 0 := by
  intro n
  cases n with
  | zero => rfl
  | succ n =>
    rw [countGreedy, if_neg]
    rw [existsSuffix_tag_false l h]
    simp

/-- Claim C3 (code bug): the paired-tag high-confidence rule of
`detectContentType` can never fire.  The greedy any-character run of the
counting regex stretches every match to the LAST closing angle bracket of
the input, so the global match count is at most one and the threshold of two
is unreachable; consequently an input with two tag-like tokens, a closing
tag and an embedded bold marker classifies as markdown, against the claim
(and against the stated intent of the surrounding source comments). -/
theorem c3_paired_tag_rule_dead :
    (∀ l : List Char, htmlTagCount l ≤ 1) ∧
    detectContentType "<p>**b**</p><p>x</p>" = "markdown" := by
  constructor
  · intro l
    unfold htmlTagCount
    rw [countGreedy]
    by_cases h : existsSuffix tagTokenAt l = true
    · rw [if_pos h, countGreedy_tag_zero (afterLastGt l) (afterLastGt_no_gt l)]
    · rw [if_neg h]
      simp
  · rfl

theorem lookupAttr_appendIfTruthy_ne (l : List (String × String))
    (k : String) (v : Option String) (k' : String) (h : k' ≠ k) :
    lookupAttr (appendIfTruthy l k v) k' = lookupAttr l k' := by
  rcases v with _ | s
  · rfl
  · by_cases hs : s = ""
    · simp [appendIfTruthy, hs]
    · simp only [appendIfTruthy, if_neg hs]
      rcases hcur : lookupAttr l k' with _ | w
      · rw [lookupAttr_append_of_none l _ k' hcur]
        simp only [lookupAttr]
        rw [if_neg (fun e => h (Eq.symm e))]
      · rw [lookupAttr_append_of_some l _ k' w hcur]

theorem lookupAttr_appendIfTruthy_self (l : List (String × String))
    (k : String) (v : Option String) (h : lookupAttr l k = none) :
    lookupAttr (appendIfTruthy l k v) k =
      match v with
      | some s => if s = "" then none else some (jsTrim s)
      | none => none := by
  rcases v with _ | s
  · exact h
  · by_cases hs : s = ""
    · simp [appendIfTruthy, hs, h]
    · simp only [appendIfTruthy, if_neg hs]
      rw [lookupAttr_append_of_none l _ k h]
      simp [lookupAttr]

theorem lookupAttr_imgFilter_none (ha : List (String × String)) (k : String)
    (hk : k = "src" ∨ k = "alt" ∨ k = "title") :
    lookupAttr
      (ha.filter fun kv => decide (kv.1 ≠ "src" ∧ kv.1 ≠ "alt" ∧ kv.1 ≠ "title"))
      k = none := by
  refine lookupAttr_eq_none _ k fun kv hm => ?_
  have hp := (List.mem_filter.mp hm).2
  simp only [decide_eq_true_eq] at hp
  rcases hk with hk | hk | hk <;> rw [hk]
  · exact hp.1
  · exact hp.2.1
  · exact hp.2.2

/-- Claim C4 counterexample: an image node whose stored original source and
source are both null serializes with NO src attribute at all, so
serialization does not always emit src equal to the canonical source. -/
theorem c4_counterexample :
    renderHTMLImg ⟨none, none, none, none⟩ [] = [] ∧
    lookupAttr (renderHTMLImg ⟨none, none, none, none⟩ []) "src" = none := by
  exact ⟨rfl, rfl⟩

/-- Claim C4, amended: serialization emits src exactly when the canonical
source (stored original source falling back to the plain source under
JavaScript truthiness) is non-null and non-empty, and then emits the
CLEANED canonical value (contamination truncation at the first space when
one exists, else at the first whitespace-or-quote boundary), trimmed; the
enrichment function is not an input of serialization at all, and in the
concrete scenario of the claim the enriched display URL carries the token
while the serialized src does not. -/
theorem c4_amended :
    (∀ (node : ImageAttrs) (ha : List (String × String)),
      lookupAttr (renderHTMLImg node ha) "src" =
        match jsOrSrc node.originalSrc node.src with
        | none => none
        | some s =>
          if s = "" then none
          else if cleanSrc s = "" then none else some (jsTrim (cleanSrc s))) ∧
    displaySrcView ⟨some "https://img/a.png", some "https://img/a.png", none, none⟩
        (some fun u => u ++ "?tok=abc") = some "https://img/a.png?tok=abc" ∧
    lookupAttr
        (renderHTMLImg ⟨some "https://img/a.png", some "https://img/a.png", none, none⟩ [])
        "src" = some "https://img/a.png" := by
  refine ⟨?_, rfl, rfl⟩
  intro node ha
  unfold renderHTMLImg
  simp only []
  rw [lookupAttr_appendIfTruthy_ne _ "title" node.title "src" (by decide),
    lookupAttr_appendIfTruthy_ne _ "alt" node.alt "src" (by decide),
    lookupAttr_appendIfTruthy_self _ "src" _
      (lookupAttr_imgFilter_none ha "src" (Or.inl rfl))]
  rcases jsOrSrc node.originalSrc node.src with _ | s
  · rfl
  · by_cases hs : s = ""
    · simp [hs]
    · simp only [if_neg hs]

/-- Claim C10: serialization omits alt and title entirely when the stored
value is null or the empty string, trims the values it does emit, and omits
src entirely when the canonical URL (original source falling back to the
plain source) is null or empty; in particular an explicitly-set empty alt is
lost. -/
theorem c10_omission :
    ∀ (node : ImageAttrs) (ha : List (String × String)),
      ((node.alt = none ∨ node.alt = some "") →
        lookupAttr (renderHTMLImg node ha) "alt" = none) ∧
      (∀ s, node.alt = some s → s ≠ "" →
        lookupAttr (renderHTMLImg node ha) "alt" = some (jsTrim s)) ∧
      ((node.title = none ∨ node.title = some "") →
        lookupAttr (renderHTMLImg node ha) "title" = none) ∧
      (∀ s, node.title = some s → s ≠ "" →
        lookupAttr (renderHTMLImg node ha) "title" = some (jsTrim s)) ∧
      ((jsOrSrc node.originalSrc node.src = none ∨
          jsOrSrc node.originalSrc node.src = some "") →
        lookupAttr (renderHTMLImg node ha) "src" = none) := by
  intro node ha
  have halt : lookupAttr (renderHTMLImg node ha) "alt" =
      match node.alt with
      | some s => if s = "" then none else some (jsTrim s)
      | none => none := by
    unfold renderHTMLImg
    simp only []
    rw [lookupAttr_appendIfTruthy_ne _ "title" node.title "alt" (by decide),
      lookupAttr_appendIfTruthy_self _ "alt" _
        (by
          rw [lookupAttr_appendIfTruthy_ne _ "src" _ "alt" (by decide)]
          exact lookupAttr_imgFilter_none ha "alt" (Or.inr (Or.inl rfl)))]
  have htitle : lookupAttr (renderHTMLImg node ha) "title" =
      match node.title with
      | some s => if s = "" then none else some (jsTrim s)
      | none => none := by
    unfold renderHTMLImg
    simp only []
    rw [lookupAttr_appendIfTruthy_self _ "title" _
        (by
          rw [lookupAttr_appendIfTruthy_ne _ "alt" _ "title" (by decide),
            lookupAttr_appendIfTruthy_ne _ "src" _ "title" (by decide)]
          exact lookupAttr_imgFilter_none ha "title" (Or.inr (Or.inr rfl)))]
  have hsrc : lookupAttr (renderHTMLImg node ha) "src" =
      match jsOrSrc node.originalSrc node.src with
      | none => none
      | some s =>
        if s = "" then none
        else if cleanSrc s = "" then none else some (jsTrim (cleanSrc s)) := by
    unfold renderHTMLImg
    simp only []
    rw [lookupAttr_appendIfTruthy_ne _ "title" node.title "src" (by decide),
      lookupAttr_appendIfTruthy_ne _ "alt" node.alt "src" (by decide),
      lookupAttr_appendIfTruthy_self _ "src" _
        (lookupAttr_imgFilter_none ha "src" (Or.inl rfl))]
    rcases jsOrSrc node.originalSrc node.src with _ | s
    · rfl
    · by_cases hs : s = ""
      · simp [hs]
      · simp only [if_neg hs]
  refine ⟨?_, ?_, ?_, ?_, ?_⟩
  · intro h
    rw [halt]
    rcases h with h | h
    · rw [h]
    · rw [h]; simp
  · intro s h hne
    rw [halt, h]
    simp [hne]
  · intro h
    rw [htitle]
    rcases h with h | h
    · rw [h]
    · rw [h]; simp
  · intro s h hne
    rw [htitle, h]
    simp [hne]
  · intro h
    rw [hsrc]
    rcases h with h | h
    · rw [h]
    · rw [h]; simp

/-- Claim C10 witness: a node with an explicitly empty alt serializes with
no alt attribute. -/
theorem c10_witness :
    lookupAttr (renderHTMLImg ⟨some "u.png", none, some "", none⟩ []) "alt" = none :=
  (c10_omission ⟨some "u.png", none, some "", none⟩ []).1 (Or.inr rfl)

theorem renderF_congr (R1 R2 : Registry)
    (hnone : ∀ u, R1 u = none ↔ R2 u = none)
    (hsome : ∀ u f1 f2, R1 u = some f1 → R2 u = some f2 →
      ∀ attribs, f1 (mkContext u attribs) = f2 (mkContext u attribs)) :
    ∀ fuel susp ns, renderF R1 fuel susp ns = renderF R2 fuel susp ns := by
  intro fuel
  induction fuel with
  | zero => intro susp ns; rfl
  | succ n ih =>
    intro susp ns
    cases ns with
    | nil => rfl
    | cons hd tl =>
      cases hd with
      | text s =>
        simp only [renderF]
        rw [ih]
      | tag name attribs children =>
        simp only [renderF]
        rw [ih susp tl]
        congr 1
        by_cases hs : susp = some name
        · rw [if_pos hs, if_pos hs, ih]
        · rw [if_neg hs, if_neg hs]
          have hattr :
              (if jsToLower name = "a" then
                match R1 "a" with
                | none => linkPass attribs
                | some _ => attribs
              else attribs) =
              (if jsToLower name = "a" then
                match R2 "a" with
                | none => linkPass attribs
                | some _ => attribs
              else attribs) := by
            by_cases ha : jsToLower name = "a"
            · rw [if_pos ha, if_pos ha]
              rcases h1 : R1 "a" with _ | f1
              · rw [(hnone "a").mp h1]
              · rcases h2 : R2 "a" with _ | f2
                · rw [(hnone "a").mpr h2] at h1
                  exact Option.noConfusion h1
                · rfl
            · rw [if_neg ha, if_neg ha]
          rw [hattr]
          rcases h1 : R1 (jsToLower name) with _ | f1
          · rw [(hnone _).mp h1]
            simp only []
            rw [ih]
          · rcases h2 : R2 (jsToLower name) with _ | f2
            · rw [(hnone _).mpr h2] at h1
              exact Option.noConfusion h1
            · simp only []
              rw [hsome _ f1 f2 h1 h2]
              rcases hres : f2 (mkContext (jsToLower name)
                  (if jsToLower name = "a" then
                    (match R2 "a" with
                      | none => linkPass attribs
                      | some _ => attribs)
                  else attribs)) with s | ⟨n2, a2, c2⟩ | _ | _
              · dsimp only
                by_cases hlt : headIs '<' (jsTrim s).data = true
                · rw [if_pos hlt, if_pos hlt, ih]
                · rw [if_neg hlt, if_neg hlt]
              · dsimp only
                by_cases hce : children.isEmpty = true
                · rw [if_pos hce, if_pos hce]
                · rw [if_neg hce, if_neg hce]
                  by_cases hc2 : c2.isEmpty = true
                  · rw [if_pos hc2, if_pos hc2, ih]
                  · rw [if_neg hc2, if_neg hc2, ih]
              · dsimp only
                rw [ih]
              · dsimp only
                rw [ih]

/-- Claim C8: every renderer invocation receives a context whose
inner-content field and original-serialization field are unconditionally the
empty string.  Stated two ways: the context constructor of the walk always
sets both fields to the empty string, and consequently replacing a
registered renderer by any function agreeing with it on such contexts leaves
the whole walk unchanged for every fuel, suppression state and tree. -/
theorem c8_empty_context :
    (∀ (tagName : String) (attribs : List (String × String)),
      (mkContext tagName attribs).innerHTML = "" ∧
      (mkContext tagName attribs).originalHTML = "") ∧
    ∀ (R : Registry) (t : String) (f g : TagRenderContext → RendererResult),
      (∀ ctx, ctx.innerHTML = "" → ctx.originalHTML = "" → f ctx = g ctx) →
      ∀ (fuel : Nat) (susp : Option String) (ns : List DOMNode),
        renderF (fun u => if u = t then some f else R u) fuel susp ns =
          renderF (fun u => if u = t then some g else R u) fuel susp ns := by
  constructor
  · intro tagName attribs
    exact ⟨rfl, rfl⟩
  · intro R t f g h fuel susp ns
    refine renderF_congr _ _ ?_ ?_ fuel susp ns
    · intro u
      by_cases hu : u = t
      · simp [hu]
      · simp [hu]
    · intro u f1 f2 h1 h2 attribs
      by_cases hu : u = t
      · simp only [if_pos hu] at h1 h2
        have e1 : f = f1 := Option.some.inj h1
        have e2 : g = f2 := Option.some.inj h2
        rw [← e1, ← e2]
        exact h (mkContext u attribs) rfl rfl
      · simp only [if_neg hu] at h1 h2
        rw [h1] at h2
        rw [Option.some.inj h2]

/-- Claim C8 witness: a renderer echoing the inner-content field and a
renderer returning the empty string produce identical renders on a concrete
tree, by the theorem applied with the two functions agreeing on
empty-field contexts. -/
theorem c8_witness :
    renderF
        (fun u => if u = "p" then
          some (fun ctx => RendererResult.rstr ctx.innerHTML) else none)
        1 none [DOMNode.tag "p" [] []] =
      renderF
        (fun u => if u = "p" then
          some (fun _ => RendererResult.rstr "") else none)
        1 none [DOMNode.tag "p" [] []] :=
  c8_empty_context.2 (fun _ => none) "p" _ _
    (fun ctx h1 _ => by rw [h1]) 1 none [DOMNode.tag "p" [] []]

/-- Claim C1: a registered transform that throws (or returns a malformed
value) on every context affects only its own node: that node falls back to
default rendering (element kept with its attributes untouched, even for an
anchor, since a registered anchor transform suppresses the default link
pass), its children and all siblings are walked normally under the full
registry, and the walk returns a tree rather than propagating the failure
(the catch of the source is the fallback arm of the renderer dispatch). -/
theorem c1_transform_failure_isolated :
    ∀ (R : Registry) (name : String) (fr : TagRenderContext → RendererResult),
      R (jsToLower name) = some fr →
      (∀ ctx, fr ctx = RendererResult.rthrow ∨ fr ctx = RendererResult.rbad) →
      ∀ (fuel : Nat) (attribs : List (String × String))
        (children ns : List DOMNode),
        renderF R (fuel + 1) none (DOMNode.tag name attribs children :: ns) =
          RTree.elem name attribs (renderF R fuel none children) ::
            renderF R fuel none ns := by
  intro R name fr hR hfr fuel attribs children ns
  simp only [renderF]
  rw [if_neg (by simp)]
  have hattr :
      (if jsToLower name = "a" then
        (match R "a" with
          | none => linkPass attribs
          | some _ => attribs)
      else attribs) = attribs := by
    by_cases ha : jsToLower name = "a"
    · rw [if_pos ha]
      rw [ha] at hR
      rw [hR]
    · rw [if_neg ha]
  rw [hattr, hR]
  dsimp only
  rcases hfr (mkContext (jsToLower name) attribs) with he | he
  · rw [he]
  · rw [he]

/-- Claim C1 witness: with a throwing renderer for tag b and a working
string renderer for tag i, the b node default-renders while its sibling i
node is still transformed. -/
theorem c1_witness :
    renderF
        (fun u =>
          if u = "b" then some (fun _ => RendererResult.rthrow)
          else if u = "i" then some (fun _ => RendererResult.rstr "X") else none)
        2 none [DOMNode.tag "b" [] [], DOMNode.tag "i" [] []] =
      [RTree.elem "b" [] [], RTree.text "X"] := by
  rw [c1_transform_failure_isolated _ "b" (fun _ => RendererResult.rthrow) rfl
    (fun ctx => Or.inl rfl) 1 [] [] [DOMNode.tag "i" [] []]]
  rfl

/-- Claim C5 counterexample: an anchor node whose caller set target to the
EMPTY string (and no anchor renderer registered) has that caller-set value
overwritten with _blank by the default pass, because the source guards the
assignment with a bare JavaScript negation rather than an absence check. -/
theorem c5_counterexample :
    lookupAttr (DOMNode.tag "a" [("target", "")] [] |> fun _ =>
      linkPass [("target", "")]) "target" = some "_blank" ∧
    renderF (fun _ => none) 1 none [DOMNode.tag "a" [("target", "")] []] =
      [RTree.elem "a" [("target", "_blank"), ("rel", "noopener noreferrer")] []] := by
  exact ⟨rfl, rfl⟩

/-- Claim C5, amended: when no anchor transform is registered, every anchor
node gets the default pass applied to its attributes (href rewritten through
the URL normalizer when present and non-empty; target and rel assigned when
absent OR set to the empty string, never overwriting a non-empty caller-set
value); when an anchor transform is registered the default pass is skipped
entirely for that node (shown for a throwing transform: the attributes reach
default rendering untouched). -/
theorem c5_amended :
    ∀ (R : Registry) (attribs : List (String × String))
      (children ns : List DOMNode) (fuel : Nat),
      (R "a" = none →
        renderF R (fuel + 1) none (DOMNode.tag "a" attribs children :: ns) =
          RTree.elem "a" (linkPass attribs) (renderF R fuel none children) ::
            renderF R fuel none ns) ∧
      (∀ v, lookupAttr attribs "target" = some v → v ≠ "" →
        lookupAttr (linkPass attribs) "target" = some v) ∧
      ((lookupAttr attribs "target" = none ∨ lookupAttr attribs "target" = some "") →
        lookupAttr (linkPass attribs) "target" = some "_blank") ∧
      (∀ v, lookupAttr attribs "rel" = some v → v ≠ "" →
        lookupAttr (linkPass attribs) "rel" = some v) ∧
      ((lookupAttr attribs "rel" = none ∨ lookupAttr attribs "rel" = some "") →
        lookupAttr (linkPass attribs) "rel" = some "noopener noreferrer") ∧
      (∀ h, lookupAttr attribs "href" = some h → h ≠ "" →
        lookupAttr (linkPass attribs) "href" = some (normalizeUrl h)) ∧
      (∀ fr, R "a" = some fr →
        (∀ ctx, fr ctx = RendererResult.rthrow) →
        renderF R (fuel + 1) none (DOMNode.tag "a" attribs children :: ns) =
          RTree.elem "a" attribs (renderF R fuel none children) ::
            renderF R fuel none ns) := by
  intro R attribs children ns fuel
  refine ⟨?_, ?_, ?_, ?_, ?_, ?_, ?_⟩
  · intro hRa
    simp only [renderF]
    rw [if_neg (by simp)]
    have hlow : jsToLower "a" = "a" := rfl
    rw [hlow, if_pos rfl, hRa]
  · intro v hv hne
    unfold linkPass
    rw [linkSetIfFalsy_lookup_ne _ "rel" _ "target" (by decide)]
    exact linkSetIfFalsy_lookup_keep _ "target" "_blank" v
      (by rw [linkHrefStep_lookup_ne attribs "target" (by decide)]; exact hv) hne
  · intro hv
    unfold linkPass
    rw [linkSetIfFalsy_lookup_ne _ "rel" _ "target" (by decide)]
    refine linkSetIfFalsy_lookup_fill _ "target" "_blank" ?_
    rw [linkHrefStep_lookup_ne attribs "target" (by decide)]
    exact hv
  · intro v hv hne
    unfold linkPass
    refine linkSetIfFalsy_lookup_keep _ "rel" "noopener noreferrer" v ?_ hne
    rw [linkSetIfFalsy_lookup_ne _ "target" _ "rel" (by decide),
      linkHrefStep_lookup_ne attribs "rel" (by decide)]
    exact hv
  · intro hv
    unfold linkPass
    refine linkSetIfFalsy_lookup_fill _ "rel" "noopener noreferrer" ?_
    rw [linkSetIfFalsy_lookup_ne _ "target" _ "rel" (by decide),
      linkHrefStep_lookup_ne attribs "rel" (by decide)]
    exact hv
  · intro h hv hne
    unfold linkPass
    rw [linkSetIfFalsy_lookup_ne _ "rel" _ "href" (by decide),
      linkSetIfFalsy_lookup_ne _ "target" _ "href" (by decide)]
    unfold linkHrefStep
    rw [hv]
    dsimp only
    rw [if_neg hne]
    exact lookupAttr_setAttr_self attribs "href" (normalizeUrl h)
  · intro fr hRa hfr
    simp only [renderF]
    rw [if_neg (by simp)]
    have hlow : jsToLower "a" = "a" := rfl
    rw [hlow, if_pos rfl, hRa]
    dsimp only
    rw [hfr (mkContext "a" attribs)]

/-- Claim C5 amended witness: with the empty registry, a concrete anchor
with a bare-domain href is rendered with the normalized href, and the
normalized attribute is visible through the lookup. -/
theorem c5_witness :
    renderF (fun _ => none) 1 none
        [DOMNode.tag "a" [("href", "example.com")] []] =
      [RTree.elem "a" (linkPass [("href", "example.com")]) []] ∧
    lookupAttr (linkPass [("href", "example.com")]) "href" =
      some "https://example.com" := by
  constructor
  · exact (c5_amended (fun _ => none) [("href", "example.com")] [] [] 0).1 rfl
  · have h := (c5_amended (fun _ => none) [("href", "example.com")] [] [] 0).2.2.2.2.2.1
      "example.com" rfl (by decide)
    rw [show normalizeUrl "example.com" = "https://example.com" from rfl] at h
    exact h

theorem lcase_fixed_of_tagChar (c : Char) (h : isTagNameChar c = true) :
    lcase c = c := by
  unfold lcase
  rw [if_neg]
  unfold isTagNameChar isAsciiDigit at h
  simp only [Bool.or_eq_true, Bool.and_eq_true, decide_eq_true_eq] at h
  intro hc
  omega

theorem map_lcase_fixed (l : List Char) (h : ∀ c ∈ l, isTagNameChar c = true) :
    l.map lcase = l := by
  induction l with
  | nil => rfl
  | cons c r ih =>
    simp only [List.map]
    rw [lcase_fixed_of_tagChar c (h c (by simp)),
      ih fun c' hc' => h c' (by simp [hc'])]

theorem jsToLower_fixed (l : List Char) (h : ∀ c ∈ l, isTagNameChar c = true) :
    jsToLower (String.mk l) = String.mk l := by
  show String.mk (l.map lcase) = String.mk l
  rw [map_lcase_fixed l h]

theorem spanP_mem (p : Char → Bool) (l : List Char) :
    ∀ c ∈ (spanP p l).1, p c = true := by
  induction l with
  | nil => simp [spanP]
  | cons x r ih =>
    by_cases hx : p x = true
    · simp only [spanP, if_pos hx]
      intro c hc
      rcases List.mem_cons.mp hc with h | h
      · rw [h]; exact hx
      · exact ih c h
    · simp [spanP, hx]


theorem parseNodes_lower :
    ∀ (n : Nat) (stop : Option String) (cs : List Char),
      ∀ d ∈ (parseNodes n stop cs).1, LowerTree d := by
  intro n
  induction n with
  | zero =>
    intro stop cs d hd
    simp [parseNodes] at hd
  | succ n ih =>
    intro stop cs
    simp only [parseNodes]
    split
    · intro d hd
      simp at hd
    · -- closing tag
      split
      · intro d hd
        simp at hd
      · intro d hd
        exact ih _ _ d hd
    · -- open tag or literal angle text
      split
      · -- tag-name character
        split
        · -- void or self-closing
          intro d hd
          rcases List.mem_cons.mp hd with h | h
          · subst h
            refine LowerTree.tag _ _ _ ?_ ?_
            · rename_i c r _ hc _
              refine jsToLower_fixed _ ?_
              intro ch hch
              rcases List.mem_cons.mp hch with h' | h'
              · rw [h']; exact hc
              · exact spanP_mem isTagNameChar r ch h'
            · intro c hc
              simp at hc
          · exact ih _ _ d h
        · -- with children
          intro d hd
          rcases List.mem_cons.mp hd with h | h
          · subst h
            refine LowerTree.tag _ _ _ ?_ ?_
            · rename_i c r _ hc _
              refine jsToLower_fixed _ ?_
              intro ch hch
              rcases List.mem_cons.mp hch with h' | h'
              · rw [h']; exact hc
              · exact spanP_mem isTagNameChar r ch h'
            · intro d' hd'
              exact ih _ _ d' hd'
          · exact ih _ _ d h
      · -- literal text starting with an angle bracket
        intro d hd
        rcases List.mem_cons.mp hd with h | h
        · subst h
          exact LowerTree.text _
        · exact ih _ _ d h
    · -- plain text
      intro d hd
      rcases List.mem_cons.mp hd with h | h
      · subst h
        exact LowerTree.text _
      · exact ih _ _ d h

theorem renderF_stable (R : Registry) (t : String)
    (hR : ∀ u, u ≠ t → R u = none) :
    ∀ (k : Nat) (ns : List DOMNode), sizeOf ns ≤ k →
      (∀ d ∈ ns, LowerTree d) →
      ∀ f1 f2, sizeOf ns ≤ f1 → sizeOf ns ≤ f2 →
        renderF R f1 (some t) ns = renderF R f2 (some t) ns := by
  intro k
  induction k with
  | zero =>
    intro ns hk _ f1 f2 _ _
    exfalso
    cases ns with
    | nil => simp at hk
    | cons a l =>
      simp only [List.cons.sizeOf_spec] at hk
      omega
  | succ k ih =>
    intro ns hk hlow f1 f2 hf1 hf2
    cases ns with
    | nil =>
      cases f1 <;> cases f2 <;> rfl
    | cons hd tl =>
      cases f1 with
      | zero =>
        exfalso
        simp only [List.cons.sizeOf_spec] at hf1
        omega
      | succ f1' =>
        cases f2 with
        | zero =>
          exfalso
          simp only [List.cons.sizeOf_spec] at hf2
          omega
        | succ f2' =>
          cases hd with
          | text s =>
            simp only [renderF]
            congr 1
            refine ih tl ?_ (fun d hd => hlow d (by simp [hd])) f1' f2' ?_ ?_ <;>
              (simp only [List.cons.sizeOf_spec, DOMNode.text.sizeOf_spec] at hk hf1 hf2; omega)
          | tag name attribs children =>
            have hlowhd := hlow (DOMNode.tag name attribs children) (by simp)
            have hname : jsToLower name = name := by
              cases hlowhd with
              | tag _ _ _ hn _ => exact hn
            have hch : ∀ d ∈ children, LowerTree d := by
              cases hlowhd with
              | tag _ _ _ _ hc => exact hc
            have hszc : sizeOf children ≤ k ∧ sizeOf children ≤ f1' ∧ sizeOf children ≤ f2' := by
              simp only [List.cons.sizeOf_spec, DOMNode.tag.sizeOf_spec] at hk hf1 hf2
              omega
            have hszt : sizeOf tl ≤ k ∧ sizeOf tl ≤ f1' ∧ sizeOf tl ≤ f2' := by
              simp only [List.cons.sizeOf_spec, DOMNode.tag.sizeOf_spec] at hk hf1 hf2
              omega
            simp only [renderF]
            congr 1
            · by_cases hs : (some t : Option String) = some name
              · rw [if_pos hs, if_pos hs]
                congr 1
                exact ih children hszc.1 hch f1' f2' hszc.2.1 hszc.2.2
              · rw [if_neg hs, if_neg hs]
                have hnt : name ≠ t := fun e => hs (by rw [e])
                have hRn : R (jsToLower name) = none := by
                  rw [hname]
                  exact hR name hnt
                rw [hRn]
                dsimp only
                congr 1
                exact ih children hszc.1 hch f1' f2' hszc.2.1 hszc.2.2
            · exact ih tl hszt.1 (fun d hd => hlow d (by simp [hd])) f1' f2' hszt.2.1 hszt.2.2

/-- Claim C2: a transform whose markup string re-mentions its own tag does
not recurse: (i) the returned string is re-parsed and walked with the
producing tag suppressed; (ii) that suppressed walk is stable in the fuel
beyond the size of the fragment, which is the fuel-based statement of
termination; (iii) inside the fragment every node of the producing tag is
rendered with default behavior; (iv) transforms registered for other tags
still fire inside the fragment; and (v) a returned string that does not
start with a tag-opening character after trimming is spliced in as literal
text with no further parsing. -/
theorem c2_recursion_guard :
    ∀ (t : String) (f : TagRenderContext → RendererResult) (s : String),
      jsToLower t = t →
      (∀ ctx, f ctx = RendererResult.rstr s) →
      (headIs '<' (jsTrim s).data = true →
        ∀ (fuel : Nat) (attribs : List (String × String)) (children ns : List DOMNode),
          renderF (fun u => if u = t then some f else none) (fuel + 1) none
              (DOMNode.tag t attribs children :: ns) =
            RTree.fragment (renderF (fun u => if u = t then some f else none) fuel
                (some t) (parseFragment s)) ::
              renderF (fun u => if u = t then some f else none) fuel none ns) ∧
      (∀ f1 f2, sizeOf (parseFragment s) ≤ f1 → sizeOf (parseFragment s) ≤ f2 →
        renderF (fun u => if u = t then some f else none) f1 (some t) (parseFragment s) =
          renderF (fun u => if u = t then some f else none) f2 (some t) (parseFragment s)) ∧
      (∀ (fuel : Nat) (attribs : List (String × String)) (children ns : List DOMNode),
        renderF (fun u => if u = t then some f else none) (fuel + 1) (some t)
            (DOMNode.tag t attribs children :: ns) =
          RTree.elem t attribs
              (renderF (fun u => if u = t then some f else none) fuel (some t) children) ::
            renderF (fun u => if u = t then some f else none) fuel (some t) ns) ∧
      (∀ (u : String) (g : TagRenderContext → RendererResult)
        (n2 : String) (a2 : List (String × String)),
        u ≠ t → jsToLower u = u →
        (∀ ctx, g ctx = RendererResult.relem n2 a2 []) →
        ∀ (fuel : Nat) (attribs : List (String × String)) (ns : List DOMNode),
          renderF (fun x => if x = t then some f else if x = u then some g else none)
              (fuel + 1) (some t) (DOMNode.tag u attribs [] :: ns) =
            RTree.elem n2 a2 [] ::
              renderF (fun x => if x = t then some f else if x = u then some g else none)
                fuel (some t) ns) ∧
      (headIs '<' (jsTrim s).data = false →
        ∀ (fuel : Nat) (attribs : List (String × String)) (children ns : List DOMNode),
          renderF (fun u => if u = t then some f else none) (fuel + 1) none
              (DOMNode.tag t attribs children :: ns) =
            RTree.text s ::
              renderF (fun u => if u = t then some f else none) fuel none ns) := by
  intro t f s ht hf
  refine ⟨?_, ?_, ?_, ?_, ?_⟩
  · intro hlt fuel attribs children ns
    simp only [renderF]
    rw [if_neg (by simp), ht]
    have hattr :
        (if t = "a" then
          (match (if ("a" : String) = t then some f else none) with
            | none => linkPass attribs
            | some _ => attribs)
        else attribs) = attribs := by
      by_cases ha : t = "a"
      · rw [if_pos ha, if_pos (by rw [ha])]
      · rw [if_neg ha]
    rw [hattr, if_pos rfl]
    dsimp only
    rw [hf (mkContext t attribs)]
    dsimp only
    rw [if_pos hlt]
  · intro f1 f2 hf1 hf2
    refine renderF_stable _ t ?_ (sizeOf (parseFragment s)) (parseFragment s)
      le_rfl ?_ f1 f2 hf1 hf2
    · intro u hu
      simp [hu]
    · intro d hd
      exact parseNodes_lower _ _ _ d hd
  · intro fuel attribs children ns
    simp only [renderF]
    rw [if_pos (by trivial)]
  · intro u g n2 a2 hut hu hg fuel attribs ns
    simp only [renderF]
    rw [if_neg (fun he => hut (Option.some.inj he).symm), hu]
    have hattr :
        (if u = "a" then
          (match (if ("a" : String) = t then some f
            else if ("a" : String) = u then some g else none) with
            | none => linkPass attribs
            | some _ => attribs)
        else attribs) = attribs := by
      by_cases ha : u = "a"
      · rw [if_pos ha, if_neg (fun e => hut (ha.trans e)), if_pos ha.symm]
      · rw [if_neg ha]
    rw [hattr, if_neg hut, if_pos rfl]
    dsimp only
    rw [hg (mkContext u attribs)]
    rfl
  · intro hlt fuel attribs children ns
    simp only [renderF]
    rw [if_neg (by simp), ht]
    have hattr :
        (if t = "a" then
          (match (if ("a" : String) = t then some f else none) with
            | none => linkPass attribs
            | some _ => attribs)
        else attribs) = attribs := by
      by_cases ha : t = "a"
      · rw [if_pos ha, if_pos (by rw [ha])]
      · rw [if_neg ha]
    rw [hattr, if_pos rfl]
    dsimp only
    rw [hf (mkContext t attribs)]
    dsimp only
    rw [if_neg (by simp [hlt])]

/-- Claim C2 witness: the div transform of the claim, returning a markup
string that contains a div element, renders a div node to a fragment whose
inner div is default-rendered, at fuel three (and by part two of the theorem
at any larger fuel as well). -/
theorem c2_witness :
    renderF
        (fun u => if u = "div" then
          some (fun _ => RendererResult.rstr "<div>inner</div>") else none)
        3 none [DOMNode.tag "div" [] []] =
      [RTree.fragment [RTree.elem "div" [] [RTree.text "inner"]]] := by
  have h := c2_recursion_guard "div"
    (fun _ => RendererResult.rstr "<div>inner</div>") "<div>inner</div>"
    rfl (fun _ => rfl)
  rw [h.1 rfl 2 [] [] []]
  rfl

/-- Claim C6 (code bug): the empty-registry short-circuit is NOT
output-equivalent to the tree-walking path with zero transforms.  Its regex
only rewrites anchor open tags that carry a quoted href attribute, so the
bare anchor around x passes through the short circuit unchanged, while the
general path renders the same markup with target and rel injected -- the
two outputs differ in more than attribute order. -/
theorem c6_short_circuit_divergence :
    shortCircuitRewrite "<a>x</a>" = "<a>x</a>" ∧
    parseFragment "<a>x</a>" = [DOMNode.tag "a" [] [DOMNode.text "x"]] ∧
    renderF (fun _ => none) 2 none (parseFragment "<a>x</a>") =
      [RTree.elem "a" [("target", "_blank"), ("rel", "noopener noreferrer")]
        [RTree.text "x"]] := by
  exact ⟨rfl, rfl, rfl⟩
